import Mathlib

/-!
Verification development for the RSS-Gazette feed-to-document pipeline.

The Python sources are shallowly embedded:

* `FeedConfig`, `Article` — the two dataclasses of `feedhandler.py`, with the
  annotated Python types (`str | None` becomes `Option String`, `int` becomes
  `Int`).  `Article.summary` is `Option String` because `parse_feed` stores
  `entry.get("summary")`, which is `None` when the key is absent (the
  dataclass annotation `str` is not enforced at runtime).
* The persisted JSON configuration file is embedded at the level of parsed
  JSON values: a persisted store is a list of records, each record an ordered
  list of key/value pairs (`JRecord`), matching what `json.load`/`json.dump`
  read and write.  Deserialization is embedded twice, at two abstraction
  levels: `RawFeedConfig`/`load_feedsRaw` carry the unvalidated JSON values a
  dataclass constructor really accepts (dataclasses do not type-check), and
  the typed `FeedConfig` is the store element as the rest of the pipeline
  uses it.
* `parse_feed` is embedded over an abstract `ParsedFeed` (the result of
  `feedparser.parse`: optional transport status, bozo flag, entry list) and an
  abstract enrichment capability `enrich : String → Option String` standing
  for the Newspaper download/parse of a link (`some body` on success, `none`
  when it raises).  Exceptions become values: normalization of one entry
  returns `Option Article`, `none` being the outer
  `except AttributeError: continue` path that skips a link-less entry.
* `generate_epub` of `generator.py` is embedded as a pure document builder
  returning a `GenResult`: the no-content sentinel path, a raised exception
  propagated to the caller, or the book's structural content (table of
  contents and spine; CSS/cover/NCX payloads are opaque filesystem assets
  with no structural content and are omitted).
-/

namespace RSSGazette

/-- Parsed JSON values as they occur in the feeds configuration file. -/
inductive JValue where
  | null : JValue
  | str : String → JValue
  | int : Int → JValue
deriving DecidableEq, Repr

/-- One parsed JSON object, as an ordered list of key/value pairs. -/
abbrev JRecord := List (String × JValue)

/-- Configuration for a single RSS feed (`feedhandler.FeedConfig`). -/
structure FeedConfig where
  url : String
  name : Option String
  num_articles : Int := 5
deriving DecidableEq, Repr

/-- A normalized article (`feedhandler.Article`). -/
structure Article where
  title : String
  link : String
  summary : Option String
  published : String
  author : Option String
  text : Option String
deriving DecidableEq, Repr

/-- One raw feed entry: a loosely-typed mapping whose fields may all be
absent, as delivered by `feedparser`. -/
structure RawEntry where
  title : Option String
  link : Option String
  summary : Option String
  published : Option String
  author : Option String
deriving DecidableEq, Repr

/-- The result of `feedparser.parse`: an optional transport status (absent
when the transport surfaced none), the bozo flag, and the entries. -/
structure ParsedFeed where
  status : Option Int
  bozo : Bool
  entries : List RawEntry
deriving DecidableEq, Repr

/-! ### FeedStore: `load_feeds`, `save_feeds`, `update_feed` -/

/-- Serialization of one `FeedConfig` by `save_feeds`: `json.dump` of
`asdict(feed)` writes the dataclass fields in declaration order. -/
def configRecord (f : FeedConfig) : JRecord :=
  [("url", JValue.str f.url),
   ("name", match f.name with | some n => JValue.str n | none => JValue.null),
   ("num_articles", JValue.int f.num_articles)]

/-- `FeedHandler.save_feeds`: serializes the full ordered collection. -/
def save_feeds (l : List FeedConfig) : List JRecord :=
  l.map configRecord

/-- First value stored under key `k`, as Python dict lookup. -/
def lookupKey (k : String) (r : JRecord) : Option JValue :=
  (r.find? (fun p => p.1 == k)).map (fun p => p.2)

/-- The keyword arguments `FeedConfig.__init__` accepts. -/
def allowedKey (k : String) : Bool :=
  k == "url" || k == "name" || k == "num_articles"

/-- The object `FeedConfig(**feed_data)` actually builds: Python
dataclasses perform no runtime type validation, so each field holds
whatever JSON value the record carried. -/
structure RawFeedConfig where
  url : JValue
  name : JValue
  num_articles : JValue
deriving DecidableEq, Repr

/-- Serialization of one such object: `json.dump` of `asdict(feed)` writes
the dataclass fields in declaration order, with the values as stored. -/
def configRecordRaw (f : RawFeedConfig) : JRecord :=
  [("url", f.url), ("name", f.name), ("num_articles", f.num_articles)]

/-- `save_feeds` over the unvalidated objects. -/
def save_feedsRaw (l : List RawFeedConfig) : List JRecord :=
  l.map configRecordRaw

/-- Deserialization of one record, `FeedConfig(**feed_data)`: an unexpected
key, or a missing `url` or `name` (the fields without defaults), raises
`TypeError` (here `none`); `num_articles` defaults to `5` when absent.  No
value is type-checked: any JSON value is accepted for any field. -/
def loadRecordRaw (r : JRecord) : Option RawFeedConfig :=
  if r.all (fun p => allowedKey p.1) then
    match lookupKey "url" r, lookupKey "name" r with
    | some u, some n =>
      some { url := u, name := n,
             num_articles := (lookupKey "num_articles" r).getD (JValue.int 5) }
    | _, _ => none
  else none

/-- `FeedHandler.load_feeds` on an existing file: parses every record; a
record that raises propagates the error (`none`), refusing a partial
result. -/
def load_feedsRaw : List JRecord → Option (List RawFeedConfig)
  | [] => some []
  | r :: rs =>
    match loadRecordRaw r, load_feedsRaw rs with
    | some f, some fs => some (f :: fs)
    | _, _ => none

/-- `FeedHandler.update_feed`'s loop: scan in insertion order, replace the
first entry whose `url` matches, and stop (`break`); if none matches, the
list is unchanged. -/
def update_feed (url : String) (cfg : FeedConfig) : List FeedConfig → List FeedConfig
  | [] => []
  | f :: fs => if f.url = url then cfg :: fs else f :: update_feed url cfg fs

/-- In-memory list plus the persisted file contents of a `FeedHandler`. -/
structure StoreState where
  feeds_data : List FeedConfig
  file : List JRecord
deriving DecidableEq, Repr

/-- `FeedHandler.update_feed` as a whole: mutate the list, then
`save_feeds` (called on both the matched and the unmatched path). -/
def update_feed_and_save (url : String) (cfg : FeedConfig) (s : StoreState) : StoreState :=
  let fd := update_feed url cfg s.feeds_data
  { feeds_data := fd, file := save_feeds fd }

/-! ### FeedFetcher + ArticleNormalizer: `parse_feed` -/

/-- The diagnostic placeholder `parse_feed` stores when full-text
enrichment fails. -/
def errorText : String := "Error parsing full article content."

/-- The Python check `hasattr(parsed_feed, 'status') and
parsed_feed.status != 200`. -/
def statusAborts (pf : ParsedFeed) : Bool :=
  match pf.status with
  | some s => decide (s ≠ 200)
  | none => false

/-- Normalization of one raw entry inside `parse_feed`'s loop.  Field
fallbacks follow `entry.get(...)` with the sentinels of the source.  When
the entry has no link, `FullText(entry.link)` raises `AttributeError`, the
inner handler's `logger.warning(..., entry.link, e)` re-evaluates
`entry.link` and raises again, and the outer
`except AttributeError: continue` skips the entry — no Article (`none`).
When the entry has a link, any enrichment failure is caught by the inner
handler (whose logging of the existing link succeeds) and yields the
diagnostic placeholder, and an Article is always produced. -/
def normalizeEntry (enrich : String → Option String) (e : RawEntry) : Option Article :=
  match e.link with
  | none => none
  | some l =>
    some { title := e.title.getD "No Title"
           link := l
           summary := e.summary
           published := e.published.getD "No Date"
           author := some (e.author.getD "Unknown Author")
           text := match enrich l with
                   | some body => some body
                   | none => some errorText }

/-- Python's `xs[:n]` for an arbitrary `int` bound: a negative bound counts
from the end. -/
def pySliceTo (n : Int) (xs : List α) : List α :=
  if n < 0 then xs.take ((xs.length : Int) + n).toNat else xs.take n.toNat

/-- `FeedHandler.parse_feed`: abort with zero articles on a non-success
transport status or on the bozo flag; otherwise run the loop over the
first `num_articles` entries in feed-document order, appending one Article
per entry that normalizes and skipping (`continue`) the entries whose
normalization raises `AttributeError`. -/
def parse_feed (enrich : String → Option String) (cfg : FeedConfig)
    (pf : ParsedFeed) : List Article :=
  if statusAborts pf then []
  else if pf.bozo then []
  else (pySliceTo cfg.num_articles pf.entries).filterMap (normalizeEntry enrich)

/-! ### DocumentAssembler: `generate_epub` -/

/-- Configuration for EPUB generation (`generator.EpubConfig`).  The CSS and
cover paths point at opaque styling assets and are omitted from the
structural model. -/
structure EpubConfig where
  title : String
  author : String := "RSS Feed Collection"
  language : String := "en"
  description : Option String := none
  output_dir : String := "output"
deriving DecidableEq, Repr

/-- One chapter as built by `_create_chapter`: an article's title and the
file name `chapter_<index>.xhtml` from 1-based enumeration. -/
structure Chapter where
  title : String
  fileName : String
deriving DecidableEq, Repr

/-- File name for chapter number `i`. -/
def chapterFileName (i : Nat) : String :=
  "chapter_" ++ toString i ++ ".xhtml"

/-- The field names `feedhandler.Article` declares; an attribute read on an
Article is defined exactly for these. -/
def articleFields : List String :=
  ["title", "link", "summary", "published", "author", "text"]

/-- `EpubGenerator._create_chapter` for article `a` at 1-based index `i`:
its content f-string interpolates `article.source_name` and
`article.category`, fields `feedhandler.Article` does not declare, so both
attribute reads raise `AttributeError` (`none`) and the `EpubHtml` built
from the article's title and `chapter_<i>.xhtml` is never returned. -/
def create_chapter (a : Article) (i : Nat) : Option Chapter :=
  if "source_name" ∈ articleFields ∧ "category" ∈ articleFields then
    some { title := a.title, fileName := chapterFileName i }
  else none

/-- The chapter loop of `generate_epub` (`enumerate(articles, 1)`) starting
at index `i`; an exception from `_create_chapter` propagates out of the
loop (`none`). -/
def chaptersFrom (i : Nat) : List Article → Option (List Chapter)
  | [] => some []
  | a :: as =>
    match create_chapter a i with
    | none => none
    | some c =>
      match chaptersFrom (i + 1) as with
      | none => none
      | some cs => some (c :: cs)

/-- One entry of the book's table of contents: the top-level navigation
link (`epub.Link('nav.xhtml', 'Table of Contents', 'toc')`) or a
chapter. -/
inductive TocEntry where
  | link : String → String → String → TocEntry
  | chapter : Chapter → TocEntry
deriving DecidableEq, Repr

/-- One item of the book's spine: the `'nav'` document or a chapter. -/
inductive SpineItem where
  | nav : SpineItem
  | chapter : Chapter → SpineItem
deriving DecidableEq, Repr

/-- The structural content of the assembled EPUB book. -/
structure Book where
  title : String
  author : String
  language : String
  toc : List TocEntry
  spine : List SpineItem
deriving DecidableEq, Repr

/-- Result of `generate_epub`: the empty-input path logs a warning and
returns the sentinel path `""` without building any book; an exception
inside the `try` block is logged and re-raised to the caller (`raised`);
otherwise the written book and its output path are returned. -/
inductive GenResult where
  | noContent : GenResult
  | raised : GenResult
  | generated : Book → String → GenResult
deriving DecidableEq, Repr

/-- Python's `if not filename:` default: `None` and the empty string both
fall back to `newspaper_<timestamp>`. -/
def chooseFilename (filename : Option String) (today : String) : String :=
  match filename with
  | none => "newspaper_" ++ today
  | some s => if s = "" then "newspaper_" ++ today else s

/-- Ensure the `.epub` extension, as `generate_epub` does. -/
def ensureEpubExt (s : String) : String :=
  if s.endsWith ".epub" then s else s ++ ".epub"

/-- `EpubGenerator.generate_epub`: with no articles, warn and return the
sentinel (no artifact); otherwise run the chapter loop — whose chapter
construction raises for every Article, the exception being logged and
re-raised — and only on its success build a table of contents headed by
the navigation link and a spine headed by `'nav'`, in chapter order. -/
def generate_epub (cfg : EpubConfig) (today : String) (articles : List Article)
    (filename : Option String) : GenResult :=
  if articles = [] then GenResult.noContent
  else
    match chaptersFrom 1 articles with
    | none => GenResult.raised
    | some chs =>
      let fname := ensureEpubExt (chooseFilename filename today)
      GenResult.generated
        { title := cfg.title
          author := cfg.author
          language := cfg.language
          toc := TocEntry.link "nav.xhtml" "Table of Contents" "toc" :: chs.map TocEntry.chapter
          spine := SpineItem.nav :: chs.map SpineItem.chapter }
        (cfg.output_dir ++ "/" ++ fname)

/-! ### Aggregator: global stable sort

Modelled from the spec: the Aggregator's optional global sort ("a global
stable sort by `published_at` descending, treating Articles with no
parseable timestamp as the oldest possible value (sorted last, not
excluded)") is not present under `src/` — no source file defines a
`published_at` field or any sorting of aggregated articles — so it is
modelled here from the spec's words.  An article is paired with its
optional parsed timestamp, and the sort is a stable insertion sort on the
descending-timestamp order. -/
structure TimedArticle where
  article : Article
  published_at : Option Int
deriving DecidableEq, Repr

/-- Modelled from the spec: `a` may precede `b` in the descending order —
a missing timestamp is treated as the oldest possible value. -/
def descBefore (a b : TimedArticle) : Bool :=
  match a.published_at, b.published_at with
  | some x, some y => decide (y ≤ x)
  | some _, none => true
  | none, some _ => false
  | none, none => true

/-- Modelled from the spec: stable insertion of `x` into an already sorted
list — `x` goes in front of the first element it may precede, hence after
every earlier element of equal rank. -/
def insertDesc (x : TimedArticle) : List TimedArticle → List TimedArticle
  | [] => [x]
  | b :: bs => if descBefore x b then x :: b :: bs else b :: insertDesc x bs

/-- Modelled from the spec: the Aggregator's stable sort by `published_at`
descending. -/
def sortByPublishedDesc : List TimedArticle → List TimedArticle
  | [] => []
  | x :: l => insertDesc x (sortByPublishedDesc l)

/-! ### Theorems about `parse_feed` -/

/-- C1: for every FeedConfig, if the fetched feed reports a non-success
transport status or the parser's malformed-feed (bozo) flag is set,
`parse_feed` returns the empty list of Articles and does not raise; no
entries of that feed are consumed. -/
theorem parse_feed_aborts_on_error (enrich : String → Option String)
    (cfg : FeedConfig) (pf : ParsedFeed)
    (h : (∃ s, pf.status = some s ∧ s ≠ 200) ∨ pf.bozo = true) :
    parse_feed enrich cfg pf = [] := by
  unfold parse_feed
  rcases h with ⟨s, hs, hne⟩ | hb
  · have hst : statusAborts pf = true := by
      unfold statusAborts
      rw [hs]
      simpa using hne
    simp [hst]
  · by_cases hst : statusAborts pf = true <;> simp [hst, hb]

/-- Witness for C1 at a concrete feed with transport status 404 and one
entry. -/
theorem parse_feed_aborts_on_error_witness :
    parse_feed (fun _ => none) { url := "u", name := none }
      ⟨some 404, false, [⟨none, none, none, none, none⟩]⟩ = [] :=
  parse_feed_aborts_on_error _ _ _ (Or.inl ⟨404, rfl, by decide⟩)

/-- C2: for every FeedConfig (whose `num_articles` is a positive cap, per
the data model) and every parsed feed, `parse_feed` consumes only the
first `num_articles` entries in feed-document order without re-sorting —
the result is the entry-by-entry normalization of that prefix, with the
skipped entries dropped — so the returned Article list has length at most
`num_articles` regardless of how many entries normalize successfully. -/
theorem parse_feed_truncates (enrich : String → Option String)
    (cfg : FeedConfig) (pf : ParsedFeed) (h : 0 < cfg.num_articles) :
    ((parse_feed enrich cfg pf).length : Int) ≤ cfg.num_articles ∧
    (parse_feed enrich cfg pf = [] ∨
      parse_feed enrich cfg pf =
        (pf.entries.take cfg.num_articles.toNat).filterMap (normalizeEntry enrich)) := by
  have hslice : pySliceTo cfg.num_articles pf.entries
      = pf.entries.take cfg.num_articles.toNat := by
    unfold pySliceTo
    rw [if_neg (by omega)]
  refine ⟨?_, ?_⟩
  · by_cases h1 : statusAborts pf = true
    · simp [parse_feed, h1]
      omega
    · by_cases h2 : pf.bozo = true
      · simp [parse_feed, h1, h2]
        omega
      · have hpf : parse_feed enrich cfg pf
            = (pf.entries.take cfg.num_articles.toNat).filterMap (normalizeEntry enrich) := by
          simp [parse_feed, h1, h2, hslice]
        rw [hpf]
        have hle := List.length_filterMap_le (normalizeEntry enrich)
          (pf.entries.take cfg.num_articles.toNat)
        have htk := List.length_take cfg.num_articles.toNat pf.entries
        omega
  · by_cases h1 : statusAborts pf = true
    · exact Or.inl (by simp [parse_feed, h1])
    · by_cases h2 : pf.bozo = true
      · exact Or.inl (by simp [parse_feed, h1, h2])
      · exact Or.inr (by simp [parse_feed, h1, h2, hslice])

/-- Witness for C2: a config capped at 2 articles against a feed with 5
linked entries consumes only the first 2. -/
theorem parse_feed_truncates_witness :
    ((parse_feed (fun _ => none) { url := "u", name := none, num_articles := 2 }
        ⟨none, false, [⟨some "a", some "la", none, none, none⟩,
          ⟨some "b", some "lb", none, none, none⟩, ⟨some "c", some "lc", none, none, none⟩,
          ⟨some "d", some "ld", none, none, none⟩,
          ⟨some "e", some "le", none, none, none⟩]⟩).length : Int) ≤ 2 ∧
    (parse_feed (fun _ => none) { url := "u", name := none, num_articles := 2 }
        ⟨none, false, [⟨some "a", some "la", none, none, none⟩,
          ⟨some "b", some "lb", none, none, none⟩, ⟨some "c", some "lc", none, none, none⟩,
          ⟨some "d", some "ld", none, none, none⟩,
          ⟨some "e", some "le", none, none, none⟩]⟩ = [] ∨
      parse_feed (fun _ => none) { url := "u", name := none, num_articles := 2 }
        ⟨none, false, [⟨some "a", some "la", none, none, none⟩,
          ⟨some "b", some "lb", none, none, none⟩, ⟨some "c", some "lc", none, none, none⟩,
          ⟨some "d", some "ld", none, none, none⟩,
          ⟨some "e", some "le", none, none, none⟩]⟩ =
        List.filterMap (normalizeEntry (fun _ => none))
          (List.take ((2 : Int)).toNat
            ([⟨some "a", some "la", none, none, none⟩, ⟨some "b", some "lb", none, none, none⟩,
              ⟨some "c", some "lc", none, none, none⟩, ⟨some "d", some "ld", none, none, none⟩,
              ⟨some "e", some "le", none, none, none⟩ ] : List RawEntry))) :=
  parse_feed_truncates _ _ _ (by decide)

/-- C3 counterexample: an entry lacking author, published and summary that
also lacks its link yields no Article at all — `entry.link` raises
`AttributeError`, which escapes the inner handler through its own logging
call, and the outer handler skips the entry — so "still yields exactly one
Article" is false of the program at this input. -/
theorem normalize_missing_fields_counterexample :
    normalizeEntry (fun _ => none) ⟨none, none, none, none, none⟩ = none ∧
    parse_feed (fun _ => none) { url := "u", name := none }
      ⟨none, false, [⟨none, none, none, none, none⟩]⟩ = [] := by
  decide

/-- C3 (amended): for every raw feed entry that has a link but lacks the
author, published, and summary fields, normalization still yields exactly
one Article whose author is the sentinel "Unknown Author", whose published
field is the sentinel "No Date", and whose summary is defined (here null),
never raising to the caller; an entry that also lacks its link is skipped
entirely, yielding no Article. -/
theorem normalize_missing_fields :
    (∀ (enrich : String → Option String) (e : RawEntry) (l : String),
        e.link = some l → e.author = none → e.published = none → e.summary = none →
        (normalizeEntry enrich e).isSome = true ∧
        (normalizeEntry enrich e).map Article.author = some (some "Unknown Author") ∧
        (normalizeEntry enrich e).map Article.published = some "No Date" ∧
        (normalizeEntry enrich e).map Article.summary = some none) ∧
    (∀ (enrich : String → Option String) (e : RawEntry),
        e.link = none → normalizeEntry enrich e = none) := by
  constructor
  · intro enrich e l hl hA hP hS
    simp [normalizeEntry, hl, hA, hP, hS]
  · intro enrich e hl
    simp [normalizeEntry, hl]

/-- Witness for C3's amended claim: a linked entry with every other
optional field absent, and an all-absent entry that is skipped. -/
theorem normalize_missing_fields_witness :
    ((normalizeEntry (fun _ => none) ⟨none, some "L", none, none, none⟩).isSome = true ∧
     (normalizeEntry (fun _ => none) ⟨none, some "L", none, none, none⟩).map Article.author
         = some (some "Unknown Author") ∧
     (normalizeEntry (fun _ => none) ⟨none, some "L", none, none, none⟩).map Article.published
         = some "No Date" ∧
     (normalizeEntry (fun _ => none) ⟨none, some "L", none, none, none⟩).map Article.summary
         = some none) ∧
    normalizeEntry (fun _ => none) ⟨some "t", none, none, none, none⟩ = none :=
  ⟨normalize_missing_fields.1 _ _ "L" rfl rfl rfl rfl,
   normalize_missing_fields.2 _ _ rfl⟩

/-- How many entries of a list normalize does not depend on the enrichment
behaviour: only the presence of a link decides it. -/
theorem filterMap_normalizeEntry_length (enrich enrich2 : String → Option String) :
    ∀ l : List RawEntry,
      (l.filterMap (normalizeEntry enrich)).length
        = (l.filterMap (normalizeEntry enrich2)).length
  | [] => rfl
  | e :: es => by
    rcases hl : e.link with _ | l
    · have h1 : normalizeEntry enrich e = none := by simp [normalizeEntry, hl]
      have h2 : normalizeEntry enrich2 e = none := by simp [normalizeEntry, hl]
      simp [List.filterMap_cons, h1, h2,
        filterMap_normalizeEntry_length enrich enrich2 es]
    · obtain ⟨a1, ha1⟩ : ∃ a, normalizeEntry enrich e = some a := by
        simp [normalizeEntry, hl]
      obtain ⟨a2, ha2⟩ : ∃ a, normalizeEntry enrich2 e = some a := by
        simp [normalizeEntry, hl]
      simp [List.filterMap_cons, ha1, ha2,
        filterMap_normalizeEntry_length enrich enrich2 es]

/-- C4: for every entry whose full-text enrichment fails, normalization of
that entry still completes and produces an Article whose text field is the
fixed diagnostic placeholder; and enrichment failure never aborts
normalization of the entry or its siblings — whether an entry yields an
Article depends only on it having a link, never on the enrichment outcome,
so the article count of a feed is the same for every enrichment
behaviour. -/
theorem enrichment_failure_isolated :
    (∀ (enrich : String → Option String) (e : RawEntry) (l : String),
        e.link = some l → enrich l = none →
        (normalizeEntry enrich e).map Article.text = some (some errorText)) ∧
    (∀ (enrich : String → Option String) (e : RawEntry),
        (normalizeEntry enrich e).isSome = e.link.isSome) ∧
    (∀ (enrich enrich2 : String → Option String) (cfg : FeedConfig) (pf : ParsedFeed),
        (parse_feed enrich cfg pf).length = (parse_feed enrich2 cfg pf).length) := by
  refine ⟨?_, ?_, ?_⟩
  · intro enrich e l hl he
    simp [normalizeEntry, hl, he]
  · intro enrich e
    rcases hl : e.link with _ | l <;> simp [normalizeEntry, hl]
  · intro enrich enrich2 cfg pf
    by_cases h1 : statusAborts pf = true
    · simp [parse_feed, h1]
    · by_cases h2 : pf.bozo = true
      · simp [parse_feed, h1, h2]
      · simp only [parse_feed, h1, h2, Bool.false_eq_true, if_false]
        exact filterMap_normalizeEntry_length enrich enrich2 _

/-- Witness for C4 at a concrete entry whose enrichment fails, a link-less
entry, and a two-entry feed under two enrichment behaviours. -/
theorem enrichment_failure_isolated_witness :
    (normalizeEntry (fun _ => none) ⟨none, some "L", none, none, none⟩).map Article.text
        = some (some errorText) ∧
    (normalizeEntry (fun _ => none) ⟨none, some "L", none, none, none⟩).isSome
        = (some "L" : Option String).isSome ∧
    (parse_feed (fun _ => none) { url := "u", name := none }
        ⟨none, false, [⟨none, some "L", none, none, none⟩,
          ⟨none, none, none, none, none⟩]⟩).length =
      (parse_feed (fun _ => some "body") { url := "u", name := none }
        ⟨none, false, [⟨none, some "L", none, none, none⟩,
          ⟨none, none, none, none, none⟩]⟩).length :=
  ⟨enrichment_failure_isolated.1 _ _ "L" rfl rfl,
   enrichment_failure_isolated.2.1 _ _,
   enrichment_failure_isolated.2.2 _ _ _ _⟩

/-- C10 (implicit): every Article returned by `parse_feed` has a text
field that is a non-None string — either the extracted full body (the
enrichment of its link) or the fixed diagnostic string — even though the
Article type declares text as optional. -/
theorem parse_feed_text_defined (enrich : String → Option String)
    (cfg : FeedConfig) (pf : ParsedFeed) (a : Article)
    (h : a ∈ parse_feed enrich cfg pf) :
    a.text ≠ none ∧ (a.text = some errorText ∨ enrich a.link = a.text) := by
  unfold parse_feed at h
  by_cases h1 : statusAborts pf = true
  · simp [h1] at h
  · by_cases h2 : pf.bozo = true
    · simp [h1, h2] at h
    · simp only [h1, h2, if_false, Bool.false_eq_true, if_neg] at h
      obtain ⟨e, -, hne⟩ := List.mem_filterMap.mp h
      rcases hl : e.link with _ | l
      · rw [show normalizeEntry enrich e = none by simp [normalizeEntry, hl]] at hne
        cases hne
      · rcases hb : enrich l with _ | body
        · have hval : normalizeEntry enrich e
              = some { title := e.title.getD "No Title", link := l, summary := e.summary,
                       published := e.published.getD "No Date",
                       author := some (e.author.getD "Unknown Author"),
                       text := some errorText } := by
            simp [normalizeEntry, hl, hb]
          rw [hval, Option.some_inj] at hne
          subst hne
          simp
        · have hval : normalizeEntry enrich e
              = some { title := e.title.getD "No Title", link := l, summary := e.summary,
                       published := e.published.getD "No Date",
                       author := some (e.author.getD "Unknown Author"),
                       text := some body } := by
            simp [normalizeEntry, hl, hb]
          rw [hval, Option.some_inj] at hne
          subst hne
          simp [hb]

/-- Witness for C10 at a one-entry feed whose enrichment fails. -/
theorem parse_feed_text_defined_witness :
    ({ title := "No Title", link := "L", summary := none, published := "No Date",
       author := some "Unknown Author", text := some errorText } : Article).text ≠ none ∧
    (({ title := "No Title", link := "L", summary := none, published := "No Date",
        author := some "Unknown Author", text := some errorText } : Article).text
          = some errorText ∨
      (fun _ => (none : Option String))
          ({ title := "No Title", link := "L", summary := none, published := "No Date",
             author := some "Unknown Author", text := some errorText } : Article).link =
        ({ title := "No Title", link := "L", summary := none, published := "No Date",
           author := some "Unknown Author", text := some errorText } : Article).text) :=
  parse_feed_text_defined (fun _ => none) { url := "u", name := none }
    ⟨none, false, [⟨none, some "L", none, none, none⟩]⟩ _ (by decide)

/-! ### Theorems about the FeedStore -/

/-- The update scan never changes the number of stored configurations. -/
theorem update_feed_length_eq (url : String) (cfg : FeedConfig) :
    ∀ l : List FeedConfig, (update_feed url cfg l).length = l.length
  | [] => rfl
  | f :: fs => by
    unfold update_feed
    by_cases h : f.url = url <;> simp [h, update_feed_length_eq url cfg fs]

/-- C5: `update(url, config)` replaces the first, and only the first, entry
whose url matches, scanning in insertion order, leaving all other entries
and the store's length unchanged; when no entry matches, the contents are
unchanged; in both cases the store is persisted (`save_feeds` runs on both
paths of `update_feed`). -/
theorem update_feed_spec :
    (∀ (url : String) (cfg : FeedConfig) (l₁ l₂ : List FeedConfig) (f : FeedConfig),
        (∀ g ∈ l₁, g.url ≠ url) → f.url = url →
        update_feed url cfg (l₁ ++ f :: l₂) = l₁ ++ cfg :: l₂) ∧
    (∀ (url : String) (cfg : FeedConfig) (l : List FeedConfig),
        (∀ g ∈ l, g.url ≠ url) → update_feed url cfg l = l) ∧
    (∀ (url : String) (cfg : FeedConfig) (l : List FeedConfig),
        (update_feed url cfg l).length = l.length) ∧
    (∀ (url : String) (cfg : FeedConfig) (s : StoreState),
        (update_feed_and_save url cfg s).file
          = save_feeds ((update_feed_and_save url cfg s).feeds_data)) := by
  refine ⟨?_, ?_, fun url cfg l => update_feed_length_eq url cfg l, fun _ _ _ => rfl⟩
  · intro url cfg l₁
    induction l₁ with
    | nil =>
      intro l₂ f _ hf
      simp [update_feed, hf]
    | cons g gs ih =>
      intro l₂ f h₁ hf
      have hg : g.url ≠ url := h₁ g (List.mem_cons_self g gs)
      have hgs : ∀ x ∈ gs, x.url ≠ url := fun x hx => h₁ x (List.mem_cons_of_mem g hx)
      simp [update_feed, hg, ih l₂ f hgs hf]
  · intro url cfg l h
    induction l with
    | nil => rfl
    | cons g gs ih =>
      have hg : g.url ≠ url := h g (List.mem_cons_self g gs)
      have hgs : ∀ x ∈ gs, x.url ≠ url := fun x hx => h x (List.mem_cons_of_mem g hx)
      simp [update_feed, hg, ih hgs]

/-- Witness for C5 at a concrete three-element store with one match, a
no-match store, a length check, and a persisted state. -/
theorem update_feed_spec_witness :
    update_feed "u" { url := "u", name := some "new" }
        ([{ url := "a", name := none }] ++
          { url := "u", name := some "old" } :: [{ url := "u", name := some "dup" }])
      = [{ url := "a", name := none }] ++
          { url := "u", name := some "new" } :: [{ url := "u", name := some "dup" }] ∧
    update_feed "u" { url := "u", name := some "new" } [{ url := "a", name := none }]
      = [{ url := "a", name := none }] ∧
    (update_feed "u" { url := "u", name := some "new" }
        [{ url := "a", name := none }, { url := "u", name := some "old" }]).length
      = ([{ url := "a", name := none }, { url := "u", name := some "old" }] :
          List FeedConfig).length ∧
    (update_feed_and_save "u" { url := "u", name := some "new" }
        ⟨[{ url := "a", name := none }], []⟩).file
      = save_feeds ((update_feed_and_save "u" { url := "u", name := some "new" }
          ⟨[{ url := "a", name := none }], []⟩).feeds_data) :=
  ⟨update_feed_spec.1 "u" _ _ _ _ (by decide) rfl,
   update_feed_spec.2.1 "u" _ _ (by decide),
   update_feed_spec.2.2.1 "u" _ _,
   update_feed_spec.2.2.2 "u" _ _⟩

/-- Loading the canonical serialization of one in-memory object recovers
it exactly, whatever values its fields hold. -/
theorem loadRecordRaw_configRecordRaw (f : RawFeedConfig) :
    loadRecordRaw (configRecordRaw f) = some f := rfl

/-- C6 counterexample: a persisted record that omits the optional
`num_articles` field loads successfully, but saving writes the default
back, so `save(load(x))` differs from `x`. -/
theorem load_save_not_identity :
    Option.map save_feedsRaw
        (load_feedsRaw [[("url", JValue.str "u"), ("name", JValue.null)]])
        = some [[("url", JValue.str "u"), ("name", JValue.null),
                 ("num_articles", JValue.int 5)]] ∧
    Option.map save_feedsRaw
        (load_feedsRaw [[("url", JValue.str "u"), ("name", JValue.null)]])
        ≠ some [[("url", JValue.str "u"), ("name", JValue.null)]] := by
  decide

/-- C6 (amended): for every persisted collection whose records are in the
canonical serialized shape — exactly the keys `url`, `name`,
`num_articles`, in that order, with any values, since the constructor
performs no type validation — loading and then saving yields persisted
content equal to the original: record fields and record order are
preserved. -/
theorem load_save_roundtrip_canonical (x : List JRecord)
    (h : ∀ r ∈ x, ∃ f : RawFeedConfig, r = configRecordRaw f) :
    Option.map save_feedsRaw (load_feedsRaw x) = some x := by
  induction x with
  | nil => rfl
  | cons r rs ih =>
    obtain ⟨f, rfl⟩ := h r (List.mem_cons_self r rs)
    have ih' := ih (fun q hq => h q (List.mem_cons_of_mem _ hq))
    unfold load_feedsRaw
    rw [loadRecordRaw_configRecordRaw f]
    cases hl : load_feedsRaw rs with
    | none => rw [hl] at ih'; simp at ih'
    | some fs =>
      rw [hl] at ih'
      have hfs : save_feedsRaw fs = rs := by simpa using ih'
      show some (save_feedsRaw (f :: fs)) = some (configRecordRaw f :: rs)
      simp [save_feedsRaw, ← hfs]

/-- Witness for C6's amended round trip at a concrete canonical one-record
store, whose `num_articles` is (unvalidated) a string. -/
theorem load_save_roundtrip_canonical_witness :
    Option.map save_feedsRaw
        (load_feedsRaw [configRecordRaw ⟨JValue.str "u", JValue.null, JValue.str "7"⟩])
      = some [configRecordRaw ⟨JValue.str "u", JValue.null, JValue.str "7"⟩] :=
  load_save_roundtrip_canonical _
    (fun r hr => ⟨⟨JValue.str "u", JValue.null, JValue.str "7"⟩, by simpa using hr⟩)

/-! ### Theorems about the Aggregator's stable sort -/

/-- The descending order is total. -/
theorem descBefore_total (a b : TimedArticle) :
    descBefore a b = true ∨ descBefore b a = true := by
  obtain ⟨_, pa⟩ := a
  obtain ⟨_, pb⟩ := b
  unfold descBefore
  rcases pa with _ | x <;> rcases pb with _ | y <;> simp
  omega

/-- The descending order is transitive. -/
theorem descBefore_trans {a b c : TimedArticle} (h1 : descBefore a b = true)
    (h2 : descBefore b c = true) : descBefore a c = true := by
  obtain ⟨_, pa⟩ := a
  obtain ⟨_, pb⟩ := b
  obtain ⟨_, pc⟩ := c
  unfold descBefore at h1 h2 ⊢
  rcases pa with _ | x <;> rcases pb with _ | y <;> rcases pc with _ | z <;>
    simp_all
  omega

/-- Totality, as a fallback when the first comparison fails. -/
theorem descBefore_of_not {a b : TimedArticle} (h : ¬ descBefore a b = true) :
    descBefore b a = true :=
  (descBefore_total a b).resolve_left h

/-- Equal timestamps always compare favourably: the element being inserted
may precede any element of equal rank, which is what makes the insertion
stable. -/
theorem descBefore_of_published_eq {x b : TimedArticle}
    (he : b.published_at = x.published_at) : descBefore x b = true := by
  unfold descBefore
  rw [he]
  rcases x.published_at with _ | t <;> simp

/-- Elements of an insertion are the inserted element or old elements. -/
theorem mem_insertDesc {x a : TimedArticle} :
    ∀ {l : List TimedArticle}, a ∈ insertDesc x l ↔ a = x ∨ a ∈ l
  | [] => by simp [insertDesc]
  | b :: bs => by
    unfold insertDesc
    by_cases hxb : descBefore x b = true
    · rw [if_pos hxb]
      simp [or_comm, or_assoc, or_left_comm]
    · rw [if_neg hxb]
      simp [mem_insertDesc (l := bs)]
      tauto

/-- Insertion into a sorted list stays sorted. -/
theorem pairwise_insertDesc (x : TimedArticle) {l : List TimedArticle}
    (h : l.Pairwise (fun a b => descBefore a b = true)) :
    (insertDesc x l).Pairwise (fun a b => descBefore a b = true) := by
  induction l with
  | nil => simp [insertDesc]
  | cons b bs ih =>
    obtain ⟨hb, hbs⟩ := List.pairwise_cons.mp h
    unfold insertDesc
    by_cases hxb : descBefore x b = true
    · rw [if_pos hxb]
      refine List.Pairwise.cons ?_ h
      intro c hc
      rcases List.mem_cons.mp hc with rfl | hcbs
      · exact hxb
      · exact descBefore_trans hxb (hb c hcbs)
    · rw [if_neg hxb]
      refine List.Pairwise.cons ?_ (ih hbs)
      intro c hc
      rcases mem_insertDesc.mp hc with rfl | hcbs
      · exact descBefore_of_not hxb
      · exact hb c hcbs

/-- Insertion is a permutation of consing. -/
theorem perm_insertDesc (x : TimedArticle) :
    ∀ l : List TimedArticle, List.Perm (insertDesc x l) (x :: l)
  | [] => List.Perm.refl _
  | b :: bs => by
    unfold insertDesc
    by_cases hxb : descBefore x b = true
    · rw [if_pos hxb]
    · rw [if_neg hxb]
      exact ((perm_insertDesc x bs).cons b).trans (List.Perm.swap x b bs)

/-- Where an insertion lands among the articles of one fixed timestamp: in
front of none of them when its own timestamp differs, in front of all of
them (it is the newcomer from the left) when it matches. -/
theorem filter_insertDesc (k : Option Int) (x : TimedArticle) :
    ∀ l : List TimedArticle,
      (insertDesc x l).filter (fun a => decide (a.published_at = k))
        = if x.published_at = k
          then x :: l.filter (fun a => decide (a.published_at = k))
          else l.filter (fun a => decide (a.published_at = k))
  | [] => by
    unfold insertDesc
    by_cases hx : x.published_at = k <;> simp [hx]
  | b :: bs => by
    unfold insertDesc
    by_cases hxb : descBefore x b = true
    · rw [if_pos hxb]
      by_cases hx : x.published_at = k <;> simp [hx, List.filter_cons]
    · rw [if_neg hxb]
      have hbx : b.published_at ≠ x.published_at :=
        fun he => hxb (descBefore_of_published_eq he)
      by_cases hx : x.published_at = k
      · have hbk : ¬ b.published_at = k := fun hbe => hbx (hbe.trans hx.symm)
        simp [List.filter_cons, hx, hbk, filter_insertDesc k x bs]
      · by_cases hbk : b.published_at = k <;>
          simp [List.filter_cons, hx, hbk, filter_insertDesc k x bs]

/-- Sorting does not disturb the relative order of any timestamp class. -/
theorem sortByPublishedDesc_filter (k : Option Int) :
    ∀ l : List TimedArticle,
      (sortByPublishedDesc l).filter (fun a => decide (a.published_at = k))
        = l.filter (fun a => decide (a.published_at = k))
  | [] => rfl
  | x :: l => by
    unfold sortByPublishedDesc
    rw [filter_insertDesc k x (sortByPublishedDesc l)]
    by_cases hx : x.published_at = k <;>
      simp [hx, sortByPublishedDesc_filter k l, List.filter_cons]

/-- The sort's output is sorted for the descending order. -/
theorem sortByPublishedDesc_pairwise :
    ∀ l : List TimedArticle,
      (sortByPublishedDesc l).Pairwise (fun a b => descBefore a b = true)
  | [] => List.Pairwise.nil
  | x :: l => pairwise_insertDesc x (sortByPublishedDesc_pairwise l)

/-- The sort permutes its input: nothing is excluded. -/
theorem sortByPublishedDesc_perm :
    ∀ l : List TimedArticle, List.Perm (sortByPublishedDesc l) l
  | [] => List.Perm.refl _
  | x :: l =>
    (perm_insertDesc x (sortByPublishedDesc l)).trans
      ((sortByPublishedDesc_perm l).cons x)

/-- C7: the global sort by `published_at` descending is stable — articles
with identical timestamps keep their pre-sort relative order (the filter by
any one timestamp value is untouched) — every article with no parseable
timestamp sorts after all articles that have one, and the sort is a
permutation (missing-timestamp articles are included, not excluded). -/
theorem aggregator_sort_spec :
    (∀ (l : List TimedArticle) (k : Option Int),
        (sortByPublishedDesc l).filter (fun a => decide (a.published_at = k))
          = l.filter (fun a => decide (a.published_at = k))) ∧
    (∀ l : List TimedArticle,
        (sortByPublishedDesc l).Pairwise (fun a b => descBefore a b = true)) ∧
    (∀ l : List TimedArticle,
        (sortByPublishedDesc l).Pairwise
          (fun a b => a.published_at = none → b.published_at = none)) ∧
    (∀ l : List TimedArticle, List.Perm (sortByPublishedDesc l) l) := by
  refine ⟨fun l k => sortByPublishedDesc_filter k l, sortByPublishedDesc_pairwise,
    fun l => (sortByPublishedDesc_pairwise l).imp ?_, sortByPublishedDesc_perm⟩
  intro a b hab ha
  unfold descBefore at hab
  rw [ha] at hab
  rcases hb : b.published_at with _ | t
  · rfl
  · rw [hb] at hab
    simp at hab

/-- Witness for C7 at a concrete aggregation: two equal-timestamp articles
and one timestamp-less article. -/
theorem aggregator_sort_spec_witness :
    (sortByPublishedDesc
        [⟨⟨"t1", "", none, "No Date", none, none⟩, none⟩,
         ⟨⟨"t2", "", none, "No Date", none, none⟩, some 3⟩,
         ⟨⟨"t3", "", none, "No Date", none, none⟩, some 3⟩]).filter
        (fun a => decide (a.published_at = some 3))
      = ([⟨⟨"t1", "", none, "No Date", none, none⟩, none⟩,
          ⟨⟨"t2", "", none, "No Date", none, none⟩, some 3⟩,
          ⟨⟨"t3", "", none, "No Date", none, none⟩, some 3⟩] :
            List TimedArticle).filter (fun a => decide (a.published_at = some 3)) ∧
    List.Perm
      (sortByPublishedDesc
        [⟨⟨"t1", "", none, "No Date", none, none⟩, none⟩,
         ⟨⟨"t2", "", none, "No Date", none, none⟩, some 3⟩,
         ⟨⟨"t3", "", none, "No Date", none, none⟩, some 3⟩])
      [⟨⟨"t1", "", none, "No Date", none, none⟩, none⟩,
       ⟨⟨"t2", "", none, "No Date", none, none⟩, some 3⟩,
       ⟨⟨"t3", "", none, "No Date", none, none⟩, some 3⟩] :=
  ⟨aggregator_sort_spec.1 _ (some 3), aggregator_sort_spec.2.2.2 _⟩

/-! ### Theorems about the DocumentAssembler -/

/-- C8: assembling a document from an empty Article collection is
well-defined under exactly one policy — the code's explicit no-content
path: it logs a warning and returns the sentinel path without building any
book, so no malformed artifact can be produced. -/
theorem generate_epub_empty_policy (cfg : EpubConfig) (today : String)
    (filename : Option String) :
    generate_epub cfg today [] filename = GenResult.noContent := rfl

/-- C9 (code bug): the claimed nav-led spine and table of contents in input
order are the documented intent, but `_create_chapter`'s content f-string
dereferences `article.source_name` and `article.category`, neither of
which is a field of `feedhandler.Article`, so `generate_epub` raises
`AttributeError` on its first chapter (logged and re-raised at the outer
handler) for every non-empty input — here evaluated at a concrete
one-article and a concrete two-article input — and never produces the
claimed document. -/
theorem generate_epub_nonempty_raises :
    generate_epub { title := "T" } "d"
        [⟨"a1", "", none, "No Date", none, none⟩] none = GenResult.raised ∧
    generate_epub { title := "T" } "d"
        [⟨"a1", "", none, "No Date", none, none⟩,
         ⟨"a2", "", none, "No Date", none, none⟩] none = GenResult.raised := by
  constructor <;> rfl

end RSSGazette
